import Mathlib

/-!
Shallow embedding of the comicos layered drawing core (renderer Canvas
component and the layer callbacks of App), together with proofs about its
history manager, flood fill engine, compositor and project-open handler.

Pixel buffers are modelled as the flat RGBA byte list of an ImageData
(4 entries per pixel, row-major).  The layer-canvas map is an association
list keyed by layer id.  JavaScript numbers used as history indices are
modelled as `Int` (the index can be -1); out-of-range typed-array reads,
which yield `undefined` in JavaScript, are modelled as `none`.
-/

/-- The flat RGBA data array of an ImageData. -/
abbrev Buf := List Nat

/-- Layer metadata, as held in the `layers` React state of App. -/
structure Layer where
  id : String
  name : String
  opacity : ℚ
  visible : Bool
deriving DecidableEq, Repr

/-- One undo/redo record: the layer that was mutated and a full snapshot
of its buffer (field names follow the source `HistoryEntry`). -/
structure HistEntry where
  layerId : String
  imageData : Buf
deriving DecidableEq, Repr

/-- The editor core state: canvas dimensions, the ordered layer list
(index 0 topmost), the per-layer offscreen buffers keyed by id, the active
layer id, the history list with its current position, the transient
before-snapshot, and the set of layer ids ever generated (the source
generates ids from a monotone module-level counter, so ids are never
reused). -/
structure CState where
  width : Nat
  height : Nat
  layers : List Layer
  buffers : List (String × Buf)
  activeLayerId : String
  history : List HistEntry
  historyIndex : Int
  beforeState : Option Buf
  usedIds : List String
deriving DecidableEq, Repr

/-- `maxHistory` from the source. -/
def maxHistory : Nat := 50

/-- Lookup of a layer's offscreen buffer (`layerCanvasesRef.current.get`). -/
def getBuf : List (String × Buf) → String → Option Buf
  | [], _ => none
  | (k, v) :: rest, id => if k = id then some v else getBuf rest id

/-- Replace the contents of an existing layer buffer (drawing into an
existing offscreen canvas); ids not present are left untouched. -/
def updBuf : List (String × Buf) → String → Buf → List (String × Buf)
  | [], _, _ => []
  | (k, v) :: rest, id, b =>
      if k = id then (k, b) :: updBuf rest id b else (k, v) :: updBuf rest id b

/-- JavaScript `array.slice(0, e)`: a negative end counts from the end of
the array, clamped at zero. -/
def jsSlice (l : List α) (e : Int) : List α :=
  l.take (if e < 0 then ((l.length : Int) + e).toNat else e.toNat)

/-- `captureBeforeState`: snapshot the active layer's buffer into the
transient before-state; a no-op when the active layer has no buffer. -/
def captureBeforeState (s : CState) : CState :=
  match getBuf s.buffers s.activeLayerId with
  | none => s
  | some b => { s with beforeState := some b }

/-- `commitAction`: with a pending before-snapshot, truncate redo entries
beyond the position, append the snapshot for the active layer, and either
advance the position or (when the bound is exceeded) drop the oldest entry
without advancing.  A no-op when no before-snapshot is pending. -/
def commitAction (s : CState) : CState :=
  match s.beforeState with
  | none => s
  | some b =>
    let truncated := jsSlice s.history (s.historyIndex + 1)
    let pushed := truncated ++ [⟨s.activeLayerId, b⟩]
    if pushed.length > maxHistory then
      { s with history := pushed.drop 1, beforeState := none }
    else
      { s with history := pushed, historyIndex := s.historyIndex + 1,
               beforeState := none }

/-- `undo` from the imperative handle: swap the entry at the current
position with the live buffer of its layer and step the position back.
No-op when the position is negative, or when the referenced layer has no
buffer (the source returns before decrementing in that case). -/
def undo (s : CState) : CState :=
  if s.historyIndex < 0 then s
  else
    match s.history.get? s.historyIndex.toNat with
    | none => s
    | some entry =>
      match getBuf s.buffers entry.layerId with
      | none => s
      | some current =>
        { s with
          buffers := updBuf s.buffers entry.layerId entry.imageData,
          history := s.history.set s.historyIndex.toNat ⟨entry.layerId, current⟩,
          historyIndex := s.historyIndex - 1 }

/-- `redo`: no-op at the list end; otherwise advance the position and swap
against the entry there.  When the referenced layer has no buffer the
source has already incremented the position before bailing out. -/
def redo (s : CState) : CState :=
  if (s.history.length : Int) - 1 ≤ s.historyIndex then s
  else
    let i := s.historyIndex + 1
    match s.history.get? i.toNat with
    | none => { s with historyIndex := i }
    | some entry =>
      match getBuf s.buffers entry.layerId with
      | none => { s with historyIndex := i }
      | some current =>
        { s with
          buffers := updBuf s.buffers entry.layerId entry.imageData,
          history := s.history.set i.toNat ⟨entry.layerId, current⟩,
          historyIndex := i }

/-- A whole completed buffer-mutating operation on the active layer, as
driven by the pointer pipeline: `captureBeforeState` at pointer-down, the
mutation `f` of the active layer's buffer during the gesture, and
`commitAction` at pointer-up (`finishStroke`). -/
def modifyActive (f : Buf → Buf) (s : CState) : CState :=
  match getBuf s.buffers s.activeLayerId with
  | none => s
  | some b => { s with buffers := updBuf s.buffers s.activeLayerId (f b) }

/-- One completed stroke (or any other capture/mutate/commit operation). -/
def doOp (f : Buf → Buf) (s : CState) : CState :=
  commitAction (modifyActive f (captureBeforeState s))

/-- `clear` from the imperative handle: capture, erase the active layer's
buffer to fully transparent, commit.  Bails out before capturing when the
active layer has no buffer. -/
def clear (s : CState) : CState :=
  match getBuf s.buffers s.activeLayerId with
  | none => s
  | some _ =>
      commitAction (modifyActive (fun _ => List.replicate (4 * s.width * s.height) 0)
        (captureBeforeState s))

/-- `purgeLayerHistory`: one pass over the history, dropping every entry of
the given layer and counting how many dropped entries sat at or before the
current position; the position is then decreased by that count and clamped
to the end of the new list (mirrors the source loop). -/
def purgeLayerHistory (layerId : String) (s : CState) : CState :=
  let folded :=
    s.history.enum.foldl
      (fun (acc : List HistEntry × Nat) ie =>
        if ie.2.layerId = layerId then
          (acc.1, if (ie.1 : Int) ≤ s.historyIndex then acc.2 + 1 else acc.2)
        else (acc.1 ++ [ie.2], acc.2))
      ([], 0)
  { s with
    history := folded.1,
    historyIndex := min (s.historyIndex - folded.2) ((folded.1.length : Int) - 1) }

/-- History reset performed when a project load completes
(`loadImage` / `loadLayerImages` once the remaining-count reaches zero). -/
def resetHistory (s : CState) : CState :=
  { s with history := [], historyIndex := -1 }

/-- `handleAddLayer` plus the canvas reconciliation effect: prepend a new
layer record, make it active, and allocate a fresh fully transparent
buffer for it.  The id comes from the monotone generator. -/
def addLayer (id nm : String) (s : CState) : CState :=
  { s with
    layers := ⟨id, nm, 1, true⟩ :: s.layers,
    activeLayerId := id,
    buffers := s.buffers ++ [(id, List.replicate (4 * s.width * s.height) 0)],
    usedIds := id :: s.usedIds }

/-- `handleDeleteLayer` plus reconciliation: rejected when it would empty
the list; otherwise purge the layer's history entries, drop the layer and
its buffer, and move the active id to the first remaining layer if the
deleted one was active. -/
def deleteLayer (id : String) (s : CState) : CState :=
  if s.layers.length ≤ 1 then s
  else
    let s1 := purgeLayerHistory id s
    let remaining := s1.layers.filter (fun l => l.id ≠ id)
    { s1 with
      layers := remaining,
      buffers := s1.buffers.filter (fun kv => kv.1 ≠ id),
      activeLayerId :=
        if s1.activeLayerId = id then ((remaining.head?).map Layer.id).getD ""
        else s1.activeLayerId }

/-- `handleSelectLayer`. -/
def selectLayer (id : String) (s : CState) : CState :=
  { s with activeLayerId := id }

/-- `handleSetOpacity`. -/
def setLayerOpacity (id : String) (q : ℚ) (s : CState) : CState :=
  { s with layers := s.layers.map (fun l => if l.id = id then { l with opacity := q } else l) }

/-- `handleToggleVisibility` (set form). -/
def setLayerVisibility (id : String) (b : Bool) (s : CState) : CState :=
  { s with layers := s.layers.map (fun l => if l.id = id then { l with visible := b } else l) }

/-- `handleRenameLayer`. -/
def renameLayer (id nm : String) (s : CState) : CState :=
  { s with layers := s.layers.map (fun l => if l.id = id then { l with name := nm } else l) }

/-- The pure layer-list update of `handleMoveLayer`: swap a layer with its
neighbour in the order (the source passes exactly such a function to
`setLayers`). -/
def moveLayerList (id : String) (up : Bool) (l : List Layer) : List Layer :=
  let idx := l.findIdx (fun la => la.id = id)
  if idx < l.length then
    let tgt : Int := if up then (idx : Int) - 1 else (idx : Int) + 1
    if 0 ≤ tgt ∧ tgt < (l.length : Int) then
      match l.get? idx, l.get? tgt.toNat with
      | some a, some b => (l.set idx b).set tgt.toNat a
      | _, _ => l
    else l
  else l

/-- `handleMoveLayer`. -/
def moveLayer (id : String) (up : Bool) (s : CState) : CState :=
  { s with layers := moveLayerList id up s.layers }

/-- One per-layer image decode completing during `loadLayerImages`: replace
the contents of an existing layer buffer (ids without a canvas are
skipped). -/
def loadBuffer (id : String) (b : Buf) (s : CState) : CState :=
  match getBuf s.buffers id with
  | none => s
  | some _ => { s with buffers := updBuf s.buffers id b }

/-! ## Flood fill engine -/

/-- A typed-array read `data[idx]` with a possibly negative or too large
index: JavaScript yields `undefined`, modelled as `none`. -/
def readChan (data : Buf) (idx : Int) : Option Nat :=
  if idx < 0 then none else data.get? idx.toNat

/-- One channel comparison of `matchTarget`:
`Math.abs(data[idx] - target) <= tolerance`.  When the target channel is
`undefined` the subtraction is `NaN` and the comparison is false. -/
def chanMatch (c : Nat) (target : Option Nat) : Bool :=
  match target with
  | none => false
  | some t => (c : Int) - t ≤ 24 ∧ (t : Int) - c ≤ 24

/-- `matchTarget` for the pixel whose data index is `dataIdx`. -/
def matchTarget (data : Buf) (dataIdx : Nat)
    (tR tG tB tA : Option Nat) : Bool :=
  chanMatch (data.getD dataIdx 0) tR &&
  chanMatch (data.getD (dataIdx + 1) 0) tG &&
  chanMatch (data.getD (dataIdx + 2) 0) tB &&
  chanMatch (data.getD (dataIdx + 3) 0) tA

/-- The stack-based region-growing loop of `floodFill`.  The head of the
list is the top of the stack (JavaScript pushes then pops from the end).
`fuel` bounds the number of iterations; the source loop always terminates
(every iteration pops, and pushes only after marking a fresh pixel
visited), and `none` is returned only if the fuel runs out, so a `some`
result is exactly the source's. -/
def fillLoop (w h : Nat) (tR tG tB tA : Option Nat) (fr fg fb : Nat) :
    Nat → Buf → List Bool → List (Int × Int) → Option (Buf × List Bool)
  | _, data, visited, [] => some (data, visited)
  | 0, _, _, _ :: _ => none
  | fuel + 1, data, visited, (x, y) :: stack =>
    if x < 0 ∨ (w : Int) ≤ x ∨ y < 0 ∨ (h : Int) ≤ y then
      fillLoop w h tR tG tB tA fr fg fb fuel data visited stack
    else
      let pixelIdx := y.toNat * w + x.toNat
      if visited.getD pixelIdx false then
        fillLoop w h tR tG tB tA fr fg fb fuel data visited stack
      else
        let dataIdx := pixelIdx * 4
        if !matchTarget data dataIdx tR tG tB tA then
          fillLoop w h tR tG tB tA fr fg fb fuel data visited stack
        else
          let visited1 := visited.set pixelIdx true
          let data1 :=
            (((data.set dataIdx fr).set (dataIdx + 1) fg).set
              (dataIdx + 2) fb).set (dataIdx + 3) 255
          fillLoop w h tR tG tB tA fr fg fb fuel data1 visited1
            ((x, y - 1) :: (x, y + 1) :: (x - 1, y) :: (x + 1, y) :: stack)

/-- `Math.round(Math.min(255, Math.max(0, q)))` followed by the implicit
`Uint8ClampedArray` store; `Math.round` rounds half toward positive
infinity. -/
def jsRound (q : ℚ) : Nat := (min 255 (max 0 ⌊q + 1 / 2⌋)).toNat

/-- Absolute channel difference against a target channel for the
edge-softening pass; `none` models the `NaN` obtained when the target is
`undefined`. -/
def chanDiff (c : Nat) (target : Option Nat) : Option Nat :=
  match target with
  | none => none
  | some t => some ((c : Int) - t).natAbs

/-- `Math.max` of the three channel differences; `NaN`-propagating. -/
def maxDiff3 (a b c : Option Nat) : Option Nat :=
  match a, b, c with
  | some x, some y, some z => some (max x (max y z))
  | _, _, _ => none

/-- One blended channel write of the edge-softening pass:
`Math.round(Math.min(255, Math.max(0, data[di] + bg * (fill - target))))`.
When the target channel is `undefined` the whole expression is `NaN`,
which the clamped store converts to `0`. -/
def blendChan (c : Nat) (bg : ℚ) (fill : Nat) (target : Option Nat) : Nat :=
  match target with
  | none => 0
  | some t => jsRound ((c : ℚ) + bg * ((fill : ℚ) - (t : ℚ)))

/-- The body of the per-pixel scan of one expansion pass, folding over the
pixel index and carrying the mutated data plus the indices newly blended
this pass.  Membership and neighbour tests read the `expanded` snapshot of
the previous pass; channel reads see the data already mutated earlier in
the same scan, exactly as in the source. -/
def expandPixel (w h : Nat) (tR tG tB : Option Nat) (fr fg fb : Nat)
    (expanded : List Bool) (acc : Buf × List Nat) (idx : Nat) : Buf × List Nat :=
  if expanded.getD idx false then acc
  else
    let px := idx % w
    let py := idx / w
    let hasExpandedNeighbor :=
      (0 < px && expanded.getD (idx - 1) false) ||
      (px < w - 1 && expanded.getD (idx + 1) false) ||
      (0 < py && expanded.getD (idx - w) false) ||
      (py < h - 1 && expanded.getD (idx + w) false)
    if !hasExpandedNeighbor then acc
    else
      let data := acc.1
      let di := idx * 4
      let md := maxDiff3 (chanDiff (data.getD di 0) tR)
        (chanDiff (data.getD (di + 1) 0) tG) (chanDiff (data.getD (di + 2) 0) tB)
      match md with
      | some m =>
        if 255 ≤ m then acc
        else
          let bg : ℚ := 1 - (m : ℚ) / 255
          let data1 :=
            (((data.set di (blendChan (data.getD di 0) bg fr tR)).set
                (di + 1) (blendChan (data.getD (di + 1) 0) bg fg tG)).set
                (di + 2) (blendChan (data.getD (di + 2) 0) bg fb tB)).set
                (di + 3) 255
          (data1, acc.2 ++ [idx])
      | none =>
        -- NaN fraction: the guard `bgFraction <= 0` is false for NaN, so the
        -- writes go through and every clamped store of a NaN yields 0.
        let data1 := (((data.set di 0).set (di + 1) 0).set (di + 2) 0).set (di + 3) 255
        (data1, acc.2 ++ [idx])

/-- One full expansion pass: scan all pixels row-major, then mark the newly
blended pixels as expanded only after the pass completes. -/
def expandPass (w h : Nat) (tR tG tB : Option Nat) (fr fg fb : Nat)
    (data : Buf) (expanded : List Bool) : Buf × List Bool :=
  let folded := (List.range (w * h)).foldl
    (expandPixel w h tR tG tB fr fg fb expanded) (data, [])
  (folded.1, folded.2.foldl (fun e i => e.set i true) expanded)

/-- The three edge-softening passes. -/
def expandLoop (w h : Nat) (tR tG tB : Option Nat) (fr fg fb : Nat) :
    Nat → Buf → List Bool → Buf × List Bool
  | 0, data, expanded => (data, expanded)
  | n + 1, data, expanded =>
    let fst := expandPass w h tR tG tB fr fg fb data expanded
    expandLoop w h tR tG tB fr fg fb n fst.1 fst.2

/-- `floodFill` of the Canvas component.  The fill color argument is the
already-resolved RGB triple of the hex color (the source resolves it by
drawing on a 1×1 scratch canvas, which yields full alpha for hex colors).
Returns `none` only when `fuel` is insufficient for the region-growth
loop; a `some` result is the exact source behavior. -/
def floodFill (startX startY : Int) (fr fg fb : Nat) (fuel : Nat)
    (s : CState) : Option CState :=
  match getBuf s.buffers s.activeLayerId with
  | none => some s
  | some data =>
    let s1 := captureBeforeState s
    let startIdx : Int := (startY * s.width + startX) * 4
    let tR := readChan data startIdx
    let tG := readChan data (startIdx + 1)
    let tB := readChan data (startIdx + 2)
    let tA := readChan data (startIdx + 3)
    if tR = some fr ∧ tG = some fg ∧ tB = some fb ∧ tA = some 255 then
      some { s1 with beforeState := none }
    else
      match fillLoop s.width s.height tR tG tB tA fr fg fb fuel data
        (List.replicate (s.width * s.height) false) [(startX, startY)] with
      | none => none
      | some (data1, visited) =>
        let soft := expandLoop s.width s.height tR tG tB fr fg fb 3 data1 visited
        some (commitAction { s1 with buffers := updBuf s1.buffers s1.activeLayerId soft.1 })

/-! ## Compositor -/

/-- A JavaScript read `data[i]` where the index is known in range in the
source (reads feeding the drawImage blend). -/
def chan (b : Buf) (i : Nat) : Nat := (b.get? i).getD 0

/-- `drawImage` of a layer buffer over the display buffer with
`globalAlpha = alpha` and source-over compositing, per the canvas
compositing model, in exact rational arithmetic with the final rounded
clamped store. -/
def overBuf (alpha : ℚ) (dst src : Buf) : Buf :=
  (List.range dst.length).map fun i =>
    let p := i / 4
    let sa : ℚ := alpha * (chan src (4 * p + 3) : ℚ) / 255
    let da : ℚ := (chan dst (4 * p + 3) : ℚ) / 255
    let ao : ℚ := sa + da * (1 - sa)
    if i % 4 = 3 then jsRound (255 * ao)
    else if ao = 0 then 0
    else jsRound (((chan src i : ℚ) * sa + (chan dst i : ℚ) * da * (1 - sa)) / ao)

/-- `composite`: fill the display buffer with opaque white, then draw each
visible layer bottom (last) to top (first) at its opacity; layers without
a buffer are skipped. -/
def composite (s : CState) : Buf :=
  s.layers.reverse.foldl
    (fun disp l =>
      if l.visible = false then disp
      else
        match getBuf s.buffers l.id with
        | none => disp
        | some b => overBuf l.opacity disp b)
    (List.replicate (4 * s.width * s.height) 255)

/-- Read pixel `(x, y)` of a buffer as an RGBA quadruple. -/
def getPixel (b : Buf) (w x y : Nat) : Option (Nat × Nat × Nat × Nat) :=
  match b.get? (4 * (y * w + x)), b.get? (4 * (y * w + x) + 1),
        b.get? (4 * (y * w + x) + 2), b.get? (4 * (y * w + x) + 3) with
  | some r, some g, some bl, some a => some (r, g, bl, a)
  | _, _, _, _ => none

/-! ## Project open handler (App.handleOpen) -/

/-- The slice of App's React state that `handleOpen` touches. -/
structure EditorUI where
  canvasSize : Option (Option Nat × Option Nat)
  tool : String
  brushSize : Nat
  pressureEnabled : Bool
  color : String
  currentFilePath : Option String
  layers : List Layer
  activeLayerId : String
deriving DecidableEq, Repr

/-- A successfully parsed project document; absent fields (`undefined` in
JavaScript after `JSON.parse`) are `none`. -/
structure ParsedProject where
  version : Option Nat
  canvasWidth : Option Nat
  canvasHeight : Option Nat
  tool : Option String
  brushSize : Option Nat
  pressureEnabled : Option Bool
  color : Option String
  layers : Option (List Layer)
  activeLayerId : Option String
deriving DecidableEq, Repr

/-- `handleOpen` after a successful file read: `parsed` is the outcome of
`JSON.parse` (`none` when it throws, in which case the empty catch block
leaves everything unchanged).  On any parsed object the setters run
unconditionally, before any structural validation; `freshId` is the id the
default-layer generator would produce for the v1 branch. -/
def handleOpen (parsed : Option ParsedProject) (filePath : Option String)
    (freshId : String) (ui : EditorUI) : EditorUI :=
  match parsed with
  | none => ui
  | some p =>
    let ui1 : EditorUI :=
      { ui with
        canvasSize := some (p.canvasWidth, p.canvasHeight),
        tool := p.tool.getD "pen",
        brushSize := p.brushSize.getD 3,
        pressureEnabled := p.pressureEnabled.getD true,
        color := p.color.getD "#000000",
        currentFilePath := filePath }
    if p.version = some 2 ∧ p.layers ≠ none then
      let loaded := p.layers.getD []
      { ui1 with
        layers := loaded,
        activeLayerId := p.activeLayerId.getD (((loaded.head?).map Layer.id).getD "") }
    else
      { ui1 with
        layers := [⟨freshId, "default", 1, true⟩],
        activeLayerId := freshId }

/-! ## Reachability and invariants -/

/-- The history-manager invariant on states between events: the entry list
never exceeds the bound, the position stays within `[-1, length - 1]`, and
no before-snapshot is pending. -/
def HistInv (s : CState) : Prop :=
  s.history.length ≤ maxHistory ∧
  -1 ≤ s.historyIndex ∧
  s.historyIndex ≤ (s.history.length : Int) - 1 ∧
  s.beforeState = none

instance (s : CState) : Decidable (HistInv s) := by
  unfold HistInv; infer_instance

/-- One user-visible event of the core, as dispatched by the source's
pointer/keyboard/menu handlers.  `stroke` covers any completed
capture/mutate/commit gesture on the active layer; `fillStep` is a flood
fill that terminated (its fuel sufficed); `addLayerStep` carries the
freshness of generated ids (the source's monotone id counter). -/
inductive Step : CState → CState → Prop
  | stroke (f : Buf → Buf) (s : CState) : Step s (doOp f s)
  | fillStep (x y : Int) (fr fg fb : Nat) (fuel : Nat) (s s' : CState) :
      floodFill x y fr fg fb fuel s = some s' → Step s s'
  | clearStep (s : CState) : Step s (clear s)
  | undoStep (s : CState) : Step s (undo s)
  | redoStep (s : CState) : Step s (redo s)
  | addLayerStep (id nm : String) (s : CState) :
      id ∉ s.usedIds → Step s (addLayer id nm s)
  | deleteLayerStep (id : String) (s : CState) : Step s (deleteLayer id s)
  | selectLayerStep (id : String) (s : CState) : Step s (selectLayer id s)
  | setOpacityStep (id : String) (q : ℚ) (s : CState) :
      Step s (setLayerOpacity id q s)
  | setVisibilityStep (id : String) (b : Bool) (s : CState) :
      Step s (setLayerVisibility id b s)
  | renameLayerStep (id nm : String) (s : CState) : Step s (renameLayer id nm s)
  | moveLayerStep (id : String) (up : Bool) (s : CState) : Step s (moveLayer id up s)
  | loadBufferStep (id : String) (b : Buf) (s : CState) : Step s (loadBuffer id b s)
  | resetHistoryStep (s : CState) : Step s (resetHistory s)

/-! ## Sequences of operations and undos -/

/-- A sequence of completed operations, applied left to right. -/
def doOps (fs : List (Buf → Buf)) (s : CState) : CState :=
  fs.foldl (fun t f => doOp f t) s

/-- `n` successive undo() calls. -/
def undoN : Nat → CState → CState
  | 0, s => s
  | n + 1, s => undoN n (undo s)

/-- The before-snapshots recorded by a sequence of operations starting
from buffer `b`: the buffer state just before each operation. -/
def snapshots : List (Buf → Buf) → Buf → List Buf
  | [], _ => []
  | f :: fs, b => b :: snapshots fs (f b)

/-- The buffer after a sequence of operations. -/
def applyAll (fs : List (Buf → Buf)) (b : Buf) : Buf :=
  fs.foldl (fun x f => f x) b

/-- Specification of the counter in `purgeLayerHistory`: how many entries
of the given layer sit at positions (counted from `start`) at or before
`p`. -/
def countAtOrBefore (lid : String) (p : Int) : Nat → List HistEntry → Nat
  | _, [] => 0
  | start, e :: l =>
      (if e.layerId = lid ∧ (start : Int) ≤ p then 1 else 0) +
        countAtOrBefore lid p (start + 1) l

/-- After a layer is gone (no history entry references it, its buffer is
gone from the store, and its id has been consumed by the monotone id
generator), no event ever brings it back: the predicate is preserved by
every step. -/
def NoRef (d : String) (s : CState) : Prop :=
  (∀ e ∈ s.history, e.layerId ≠ d) ∧ getBuf s.buffers d = none ∧ d ∈ s.usedIds

/-! ## Concrete example states -/

/-- A 2-by-2 all-white, fully opaque layer buffer. -/
def whiteBuf2 : Buf := List.replicate 16 255

/-- A minimal editor state: one layer holding the 2-by-2 white buffer. -/
def c1State : CState :=
  { width := 2, height := 2,
    layers := [⟨"L1", "layer 1", 1, true⟩],
    buffers := [("L1", whiteBuf2)], activeLayerId := "L1",
    history := [], historyIndex := -1, beforeState := none, usedIds := ["L1"] }

/-- The 10-by-10 all-white opaque buffer of the fill scenario. -/
def whiteBuf10 : Buf := (List.replicate 100 ([255, 255, 255, 255] : List Nat)).flatten

/-- The 10-by-10 all-red opaque buffer. -/
def redBuf10 : Buf := (List.replicate 100 ([255, 0, 0, 255] : List Nat)).flatten

/-- One layer holding the 10-by-10 white buffer. -/
def c6State : CState :=
  { width := 10, height := 10,
    layers := [⟨"L1", "layer 1", 1, true⟩],
    buffers := [("L1", whiteBuf10)], activeLayerId := "L1",
    history := [], historyIndex := -1, beforeState := none, usedIds := ["L1"] }

/-- A 1-by-1 canvas with a single white layer. -/
def c2State : CState :=
  { width := 1, height := 1,
    layers := [⟨"L1", "layer 1", 1, true⟩],
    buffers := [("L1", [255, 255, 255, 255])], activeLayerId := "L1",
    history := [], historyIndex := -1, beforeState := none, usedIds := ["L1"] }

/-- `n` alternating flood fills at the origin: red, then white, then red,
and so on (each one changes the 1-by-1 canvas, so each records history). -/
def altFills : Nat → CState → Option CState
  | 0, s => some s
  | n + 1, s =>
    match altFills n s with
    | none => none
    | some t =>
      floodFill 0 0 255 (if n % 2 = 0 then 0 else 255) (if n % 2 = 0 then 0 else 255) 10 t

/-- A 1-by-1 canvas whose single layer is already opaque red. -/
def c8State : CState :=
  { width := 1, height := 1,
    layers := [⟨"L1", "layer 1", 1, true⟩],
    buffers := [("L1", [255, 0, 0, 255])], activeLayerId := "L1",
    history := [], historyIndex := -1, beforeState := none, usedIds := ["L1"] }

/-- A state whose active layer id has no buffer in the store. -/
def c10State : CState :=
  { width := 2, height := 2,
    layers := [⟨"L1", "layer 1", 1, true⟩],
    buffers := [("L1", whiteBuf2)], activeLayerId := "L2",
    history := [⟨"L1", whiteBuf2⟩], historyIndex := 0, beforeState := none,
    usedIds := ["L2", "L1"] }

/-- Two layers with interleaved history entries, for exercising the purge. -/
def c5State : CState :=
  { width := 1, height := 1,
    layers := [⟨"L2", "layer 2", 1, true⟩, ⟨"L1", "layer 1", 1, true⟩],
    buffers := [("L1", [1, 2, 3, 255]), ("L2", [4, 5, 6, 255])],
    activeLayerId := "L2",
    history := [⟨"L1", [0, 0, 0, 0]⟩, ⟨"L2", [0, 0, 0, 0]⟩, ⟨"L1", [1, 2, 3, 255]⟩],
    historyIndex := 2, beforeState := none, usedIds := ["L2", "L1"] }

/-- A populated editor UI about to open a file. -/
def c7UI : EditorUI :=
  { canvasSize := some (some 800, some 600), tool := "eraser", brushSize := 7,
    pressureEnabled := false, color := "#123456", currentFilePath := some "a.cmc",
    layers := [⟨"L1", "layer 1", 1, true⟩], activeLayerId := "L1" }

/-- The parse result of the document text consisting only of an empty
JSON object: every field is absent. -/
def emptyParsed : ParsedProject :=
  { version := none, canvasWidth := none, canvasHeight := none, tool := none,
    brushSize := none, pressureEnabled := none, color := none, layers := none,
    activeLayerId := none }

/-! ## Association-list helper lemmas -/

theorem getBuf_updBuf (l : List (String × Buf)) (id j : String) (b : Buf) :
    getBuf (updBuf l id b) j =
      if j = id then (getBuf l id).map (fun _ => b) else getBuf l j := by
  induction l with
  | nil => simp [updBuf, getBuf]
  | cons kv rest ih =>
    obtain ⟨k, v⟩ := kv
    by_cases hk : k = id
    · subst hk
      by_cases hj : k = j
      · subst hj
        simp [updBuf, getBuf]
      · have hjk : ¬ j = k := fun h => hj h.symm
        simp [updBuf, getBuf, hj, hjk, ih]
    · by_cases hj : k = j
      · subst hj
        have hji : ¬ k = id := hk
        simp [updBuf, getBuf, hk, hji, ih]
      · simp [updBuf, getBuf, hk, hj, ih]

theorem getBuf_updBuf_self (l : List (String × Buf)) (id : String) (b c : Buf)
    (h : getBuf l id = some c) : getBuf (updBuf l id b) id = some b := by
  rw [getBuf_updBuf, if_pos rfl, h]
  rfl

theorem getBuf_updBuf_ne (l : List (String × Buf)) (id j : String) (b : Buf)
    (h : j ≠ id) : getBuf (updBuf l id b) j = getBuf l j := by
  rw [getBuf_updBuf, if_neg h]

theorem updBuf_updBuf (l : List (String × Buf)) (id : String) (b c : Buf) :
    updBuf (updBuf l id b) id c = updBuf l id c := by
  induction l with
  | nil => simp [updBuf]
  | cons kv rest ih =>
    obtain ⟨k, v⟩ := kv
    by_cases hk : k = id <;> simp [updBuf, hk, ih]

theorem getBuf_append_none (l : List (String × Buf)) (kv : String × Buf)
    (j : String) (h : getBuf l j = none) (hne : kv.1 ≠ j) :
    getBuf (l ++ [kv]) j = none := by
  induction l with
  | nil =>
    obtain ⟨k, v⟩ := kv
    have hk : ¬ k = j := hne
    simp [getBuf, hk]
  | cons p rest ih =>
    obtain ⟨k, v⟩ := p
    by_cases hk : k = j
    · simp [getBuf, hk] at h
    · simp only [getBuf, if_neg hk] at h
      simp only [List.cons_append, getBuf, if_neg hk]
      exact ih h

theorem getBuf_filter_none (l : List (String × Buf)) (q : String × Buf → Bool)
    (j : String) (h : getBuf l j = none) : getBuf (l.filter q) j = none := by
  induction l with
  | nil => simp [getBuf]
  | cons p rest ih =>
    obtain ⟨k, v⟩ := p
    by_cases hk : k = j
    · simp [getBuf, hk] at h
    · simp only [getBuf, if_neg hk] at h
      by_cases hq : q (k, v)
      · simp only [List.filter_cons, hq, if_pos, getBuf, if_neg hk]
        exact ih h
      · simp only [List.filter_cons, hq]
        simpa using ih h

theorem mem_of_mem_set {α : Type} {l : List α} {i : Nat} {x y : α}
    (h : y ∈ l.set i x) : y = x ∨ y ∈ l := by
  induction l generalizing i with
  | nil => simp at h
  | cons a rest ih =>
    cases i with
    | zero =>
      rcases List.mem_cons.mp h with h1 | h1
      · exact Or.inl h1
      · exact Or.inr (List.mem_cons_of_mem _ h1)
    | succ n =>
      rcases List.mem_cons.mp h with h1 | h1
      · exact Or.inr (h1 ▸ List.mem_cons_self _ _)
      · rcases ih h1 with h2 | h2
        · exact Or.inl h2
        · exact Or.inr (List.mem_cons_of_mem _ h2)

/-! ## Commit and operation shape lemmas -/

theorem jsSlice_nonneg {α : Type} (l : List α) (e : Int) (h : 0 ≤ e) :
    jsSlice l e = l.take e.toNat := by
  unfold jsSlice
  rw [if_neg (by omega)]

/-- Exact description of one completed capture/mutate/commit operation on
a state satisfying the between-events invariant and owning an active
buffer. -/
theorem doOp_shape (f : Buf → Buf) (s : CState) (b : Buf)
    (hb : getBuf s.buffers s.activeLayerId = some b) (hInv : HistInv s) :
    (doOp f s).history
      = (s.history.take (s.historyIndex + 1).toNat).drop
          ((s.historyIndex + 1).toNat + 1 - maxHistory)
          ++ [⟨s.activeLayerId, b⟩] ∧
    (doOp f s).historyIndex = ((doOp f s).history.length : Int) - 1 ∧
    (doOp f s).history.length = min ((s.historyIndex + 1).toNat + 1) maxHistory ∧
    (doOp f s).buffers = updBuf s.buffers s.activeLayerId (f b) ∧
    (doOp f s).activeLayerId = s.activeLayerId ∧
    (doOp f s).beforeState = none ∧
    (doOp f s).width = s.width ∧ (doOp f s).height = s.height ∧
    (doOp f s).layers = s.layers ∧ (doOp f s).usedIds = s.usedIds := by
  obtain ⟨hlen, hge, hle, hbs⟩ := hInv
  set t := (s.historyIndex + 1).toNat with hts
  have htv : (t : Int) = s.historyIndex + 1 := Int.toNat_of_nonneg (by omega)
  have htlen : t ≤ s.history.length := by omega
  have hcap : captureBeforeState s = { s with beforeState := some b } := by
    simp [captureBeforeState, hb]
  have hmod : modifyActive f (captureBeforeState s) =
      { s with beforeState := some b,
               buffers := updBuf s.buffers s.activeLayerId (f b) } := by
    rw [hcap]
    simp [modifyActive, hb]
  have hslice : jsSlice s.history (s.historyIndex + 1) = s.history.take t := by
    rw [jsSlice_nonneg s.history _ (by omega), hts]
  have htake : (s.history.take t).length = t := by
    rw [List.length_take]
    omega
  have hmax : maxHistory = 50 := rfl
  unfold doOp
  rw [hmod]
  unfold commitAction
  simp only [hslice]
  have hplen : (s.history.take t ++ [(⟨s.activeLayerId, b⟩ : HistEntry)]).length = t + 1 := by
    rw [List.length_append, htake]
    rfl
  by_cases hover : (s.history.take t ++ [(⟨s.activeLayerId, b⟩ : HistEntry)]).length > maxHistory
  · rw [if_pos hover]
    dsimp only
    rw [hplen] at hover
    have ht50 : t = maxHistory := by omega
    have hd1 : t + 1 - maxHistory = 1 := by omega
    have hdrop : (s.history.take t ++ [(⟨s.activeLayerId, b⟩ : HistEntry)]).drop 1
        = (s.history.take t).drop 1 ++ [⟨s.activeLayerId, b⟩] :=
      List.drop_append_of_le_length (by omega)
    have hdlen : ((s.history.take t ++ [(⟨s.activeLayerId, b⟩ : HistEntry)]).drop 1).length = t := by
      rw [List.length_drop, hplen]
      omega
    refine ⟨?_, ?_, ?_, rfl, rfl, rfl, rfl, rfl, rfl, rfl⟩
    · rw [hdrop, hd1]
    · rw [hdlen]
      omega
    · rw [hdlen]
      omega
  · rw [if_neg hover]
    dsimp only
    rw [hplen] at hover
    have ht49 : t + 1 ≤ maxHistory := by omega
    have hz : t + 1 - maxHistory = 0 := by omega
    refine ⟨?_, ?_, ?_, rfl, rfl, rfl, rfl, rfl, rfl, rfl⟩
    · rw [hz, List.drop_zero]
    · rw [hplen]
      omega
    · rw [hplen]
      omega

theorem get?_append_length {α : Type} (A C : List α) (e : α) :
    (A ++ e :: C).get? A.length = some e := by
  induction A with
  | nil => rfl
  | cons a rest ih => simpa using ih

theorem set_append_length {α : Type} (A C : List α) (e x : α) :
    (A ++ e :: C).set A.length x = A ++ x :: C := by
  induction A with
  | nil => rfl
  | cons a rest ih => simp [List.set, ih]

/-- `undo` on a state whose position points at the entry `e` (with an
arbitrary garbage suffix `G` beyond the position): the swap happens. -/
theorem undo_shape (u : CState) (A G : List HistEntry) (e : HistEntry) (c : Buf)
    (hh : u.history = A ++ e :: G) (hidx : u.historyIndex = (A.length : Int))
    (hbuf : getBuf u.buffers e.layerId = some c) :
    undo u = { u with buffers := updBuf u.buffers e.layerId e.imageData,
                      history := A ++ (⟨e.layerId, c⟩ : HistEntry) :: G,
                      historyIndex := (A.length : Int) - 1 } := by
  have hguard : ¬ u.historyIndex < 0 := by
    rw [hidx]
    omega
  have htoNat : u.historyIndex.toNat = A.length := by
    rw [hidx]
    exact Int.toNat_natCast _
  have hget : u.history.get? u.historyIndex.toNat = some e := by
    rw [htoNat, hh]
    exact get?_append_length A G e
  have hset : u.history.set u.historyIndex.toNat ⟨e.layerId, c⟩ =
      A ++ (⟨e.layerId, c⟩ : HistEntry) :: G := by
    rw [htoNat, hh]
    exact set_append_length A G e _
  unfold undo
  rw [if_neg hguard, hget]
  dsimp only
  rw [hbuf]
  dsimp only
  rw [hset, hidx]

/-- `redo` on a state whose position sits just below the entry `e`. -/
theorem redo_shape (u : CState) (A G : List HistEntry) (e : HistEntry) (c : Buf)
    (hh : u.history = A ++ e :: G) (hidx : u.historyIndex = (A.length : Int) - 1)
    (hbuf : getBuf u.buffers e.layerId = some c) :
    redo u = { u with buffers := updBuf u.buffers e.layerId e.imageData,
                      history := A ++ (⟨e.layerId, c⟩ : HistEntry) :: G,
                      historyIndex := (A.length : Int) } := by
  have hlen : u.history.length = A.length + 1 + G.length := by
    rw [hh]
    simp
    omega
  have hguard : ¬ ((u.history.length : Int) - 1 ≤ u.historyIndex) := by
    rw [hlen, hidx]
    push_cast
    omega
  have hi : u.historyIndex + 1 = (A.length : Int) := by
    rw [hidx]
    ring
  have htoNat : (u.historyIndex + 1).toNat = A.length := by
    rw [hi]
    exact Int.toNat_natCast _
  have hget : u.history.get? (u.historyIndex + 1).toNat = some e := by
    rw [htoNat, hh]
    exact get?_append_length A G e
  have hset : u.history.set (u.historyIndex + 1).toNat ⟨e.layerId, c⟩ =
      A ++ (⟨e.layerId, c⟩ : HistEntry) :: G := by
    rw [htoNat, hh]
    exact set_append_length A G e _
  unfold redo
  rw [if_neg hguard]
  dsimp only
  rw [hget]
  dsimp only
  rw [hbuf]
  dsimp only
  rw [hset, hi]

/-- `undo` is a no-op below the start of the history. -/
theorem undo_noop_of_neg (s : CState) (h : s.historyIndex < 0) : undo s = s := by
  unfold undo
  rw [if_pos h]

/-- `redo` is a no-op at the end of the history. -/
theorem redo_noop_of_end (s : CState)
    (h : (s.history.length : Int) - 1 ≤ s.historyIndex) : redo s = s := by
  unfold redo
  rw [if_pos h]

/-- After one completed operation, undo followed by redo restores the
entire state (buffer, history, position) to the post-operation state. -/
theorem doOp_undo_redo (f : Buf → Buf) (s : CState) (b : Buf)
    (hb : getBuf s.buffers s.activeLayerId = some b) (hInv : HistInv s) :
    redo (undo (doOp f s)) = doOp f s := by
  obtain ⟨h1, h2, h3, h4, h5, h6, h7, h8, h9, h10⟩ := doOp_shape f s b hb hInv
  set T := doOp f s with hT
  set A := (s.history.take (s.historyIndex + 1).toNat).drop
      ((s.historyIndex + 1).toNat + 1 - maxHistory) with hA
  have hlen : T.history.length = A.length + 1 := by
    rw [h1]
    simp
  have hidxA : T.historyIndex = (A.length : Int) := by
    rw [h2, hlen]
    push_cast
    ring
  have hbufT : getBuf T.buffers s.activeLayerId = some (f b) := by
    rw [h4]
    exact getBuf_updBuf_self _ _ _ _ hb
  have hh1 : T.history = A ++ (⟨s.activeLayerId, b⟩ : HistEntry) :: [] := h1
  have hu := undo_shape T A [] ⟨s.activeLayerId, b⟩ (f b) hh1 hidxA hbufT
  dsimp only at hu
  rw [hu]
  have hbuf2 : getBuf (updBuf T.buffers s.activeLayerId b) s.activeLayerId = some b :=
    getBuf_updBuf_self _ _ _ (f b) hbufT
  have hr := redo_shape
    { T with buffers := updBuf T.buffers s.activeLayerId b,
             history := A ++ (⟨s.activeLayerId, f b⟩ : HistEntry) :: [],
             historyIndex := (A.length : Int) - 1 }
    A [] ⟨s.activeLayerId, f b⟩ b rfl rfl hbuf2
  dsimp only at hr
  rw [hr]
  have hbuffin : updBuf (updBuf T.buffers s.activeLayerId b) s.activeLayerId (f b)
      = T.buffers := by
    rw [updBuf_updBuf, h4, updBuf_updBuf]
  rw [hbuffin, ← hh1, ← hidxA]


theorem snapshots_length (fs : List (Buf → Buf)) (b : Buf) :
    (snapshots fs b).length = fs.length := by
  induction fs generalizing b with
  | nil => rfl
  | cons f fs ih => simp [snapshots, ih]

theorem undoN_shape (aid : String) (H : List HistEntry) :
    ∀ (bs : List Buf) (G : List HistEntry) (u : CState) (c : Buf),
      u.history = H ++ bs.map (fun x => (⟨aid, x⟩ : HistEntry)) ++ G →
      u.historyIndex = (H.length : Int) + bs.length - 1 →
      getBuf u.buffers aid = some c →
      getBuf (undoN bs.length u).buffers aid = some ((bs.head?).getD c) := by
  intro bs
  induction bs using List.reverseRecOn with
  | nil =>
    intro G u c _ _ hbuf
    simpa [undoN] using hbuf
  | append_singleton bs bl ih =>
    intro G u c hh hidx hbuf
    have hh1 : u.history =
        (H ++ bs.map (fun x => (⟨aid, x⟩ : HistEntry))) ++
          (⟨aid, bl⟩ : HistEntry) :: G := by
      rw [hh]
      simp [List.append_assoc]
    have hAlen : (H ++ bs.map (fun x => (⟨aid, x⟩ : HistEntry))).length
        = H.length + bs.length := by
      simp
    have hidx1 : u.historyIndex =
        ((H ++ bs.map (fun x => (⟨aid, x⟩ : HistEntry))).length : Int) := by
      rw [hidx, hAlen]
      simp
      ring
    have hu := undo_shape u _ G ⟨aid, bl⟩ c hh1 hidx1 hbuf
    dsimp only at hu
    have hlen2 : (bs ++ [bl]).length = bs.length + 1 := by simp
    rw [hlen2]
    show getBuf (undoN bs.length (undo u)).buffers aid = _
    rw [hu]
    have hbuf2 : getBuf (updBuf u.buffers aid bl) aid = some bl :=
      getBuf_updBuf_self _ _ _ c hbuf
    have := ih ((⟨aid, c⟩ : HistEntry) :: G)
      { u with buffers := updBuf u.buffers aid bl,
               history := (H ++ bs.map (fun x => (⟨aid, x⟩ : HistEntry))) ++
                 (⟨aid, c⟩ : HistEntry) :: G,
               historyIndex := ((H ++ bs.map (fun x => (⟨aid, x⟩ : HistEntry))).length : Int) - 1 }
      bl (by simp [List.append_assoc]) (by rw [hAlen]; push_cast; ring) hbuf2
    rw [this]
    cases bs with
    | nil => rfl
    | cons x xs => rfl

/-- State after a sequence of at most `maxHistory` completed operations
starting from a state whose position is at the end of the history: the
history ends with the operations' before-snapshots (oldest entries dropped
as the bound requires) and the position stays at the end. -/
theorem doOps_shape (fs : List (Buf → Buf)) :
    ∀ (s : CState) (b : Buf),
      getBuf s.buffers s.activeLayerId = some b →
      HistInv s →
      s.historyIndex = (s.history.length : Int) - 1 →
      fs.length ≤ maxHistory →
      (doOps fs s).history
        = s.history.drop (s.history.length + fs.length - maxHistory)
          ++ (snapshots fs b).map (fun x => (⟨s.activeLayerId, x⟩ : HistEntry)) ∧
      (doOps fs s).historyIndex = ((doOps fs s).history.length : Int) - 1 ∧
      HistInv (doOps fs s) ∧
      getBuf (doOps fs s).buffers s.activeLayerId = some (applyAll fs b) ∧
      (doOps fs s).activeLayerId = s.activeLayerId := by
  have hmax : maxHistory = 50 := rfl
  induction fs with
  | nil =>
    intro s b hb hInv hTip _
    obtain ⟨hlen, h2, h3, h4⟩ := hInv
    refine ⟨?_, hTip, ⟨hlen, h2, h3, h4⟩, hb, rfl⟩
    have h0 : s.history.length + ([] : List (Buf → Buf)).length - maxHistory = 0 := by
      simp only [List.length_nil]
      omega
    rw [h0]
    simp [snapshots, doOps]
  | cons f fs ih =>
    intro s b hb hInv hTip hk
    obtain ⟨hlen, hge, hle, hbs⟩ := hInv
    obtain ⟨g1, g2, g3, g4, g5, g6, g7, g8, g9, g10⟩ :=
      doOp_shape f s b hb ⟨hlen, hge, hle, hbs⟩
    set s1 := doOp f s with hs1
    have htlen : (s.historyIndex + 1).toNat = s.history.length := by
      rw [hTip]
      omega
    rw [htlen] at g1 g3
    rw [List.take_length] at g1
    have hInv1 : HistInv s1 := by
      refine ⟨?_, ?_, ?_, g6⟩ <;> omega
    have hb1 : getBuf s1.buffers s1.activeLayerId = some (f b) := by
      rw [g5, g4]
      exact getBuf_updBuf_self _ _ _ _ hb
    have hk1 : fs.length ≤ maxHistory := by
      simp only [List.length_cons] at hk
      omega
    obtain ⟨i1, i2, i3, i4, i5⟩ := ih s1 (f b) hb1 hInv1 g2 hk1
    have hdo : doOps (f :: fs) s = doOps fs s1 := rfl
    rw [hdo]
    rw [g5] at i1 i4 i5
    refine ⟨?_, i2, i3, i4, i5⟩
    rw [i1, g1]
    rw [show snapshots (f :: fs) b = b :: snapshots fs (f b) from rfl, List.map_cons]
    have hk2 : fs.length + 1 ≤ maxHistory := by
      simpa using hk
    have hle2 :
        (List.drop (s.history.length + 1 - maxHistory) s.history
            ++ [(⟨s.activeLayerId, b⟩ : HistEntry)]).length + fs.length - maxHistory
          ≤ (List.drop (s.history.length + 1 - maxHistory) s.history).length := by
      simp only [List.length_append, List.length_drop, List.length_cons, List.length_nil]
      omega
    rw [List.drop_append_of_le_length hle2]
    rw [List.append_assoc, List.singleton_append, List.drop_drop]
    congr 2
    simp only [List.length_append, List.length_drop, List.length_cons, List.length_nil]
    omega

/-- Round trip: at most `maxHistory` completed operations followed by the
same number of undo() calls restore the active layer's buffer. -/
theorem doOps_undoN_roundtrip (fs : List (Buf → Buf)) (s : CState) (b : Buf)
    (hb : getBuf s.buffers s.activeLayerId = some b) (hInv : HistInv s)
    (hk : fs.length ≤ maxHistory) :
    getBuf (undoN fs.length (doOps fs s)).buffers s.activeLayerId = some b := by
  have hmax : maxHistory = 50 := rfl
  cases fs with
  | nil => simpa [doOps, undoN] using hb
  | cons f fs =>
    obtain ⟨hlen, hge, hle, hbs⟩ := hInv
    obtain ⟨g1, g2, g3, g4, g5, g6, g7, g8, g9, g10⟩ :=
      doOp_shape f s b hb ⟨hlen, hge, hle, hbs⟩
    set s1 := doOp f s with hs1
    set A0 := (s.history.take (s.historyIndex + 1).toNat).drop
      ((s.historyIndex + 1).toNat + 1 - maxHistory) with hA0
    have hA0len : s1.history.length = A0.length + 1 := by
      rw [g1]
      simp
    have hInv1 : HistInv s1 := by
      refine ⟨?_, ?_, ?_, g6⟩ <;> omega
    have hb1 : getBuf s1.buffers s1.activeLayerId = some (f b) := by
      rw [g5, g4]
      exact getBuf_updBuf_self _ _ _ _ hb
    have hk1 : fs.length ≤ maxHistory := by
      simp only [List.length_cons] at hk
      omega
    obtain ⟨i1, i2, i3, i4, i5⟩ := doOps_shape fs s1 (f b) hb1 hInv1 g2 hk1
    have hk2 : fs.length + 1 ≤ maxHistory := by
      simpa using hk
    rw [g5] at i1 i4 i5
    rw [g1] at i1
    have hle3 :
        (A0 ++ [(⟨s.activeLayerId, b⟩ : HistEntry)]).length + fs.length - maxHistory
          ≤ A0.length := by
      simp only [List.length_append, List.length_cons, List.length_nil]
      omega
    rw [List.drop_append_of_le_length hle3] at i1
    rw [List.append_assoc, List.singleton_append] at i1
    have hmerge : (⟨s.activeLayerId, b⟩ : HistEntry) ::
        (snapshots fs (f b)).map (fun x => (⟨s.activeLayerId, x⟩ : HistEntry))
        = (snapshots (f :: fs) b).map (fun x => (⟨s.activeLayerId, x⟩ : HistEntry)) := rfl
    rw [hmerge] at i1
    set F := doOps fs s1 with hF
    set H := A0.drop ((A0 ++ [(⟨s.activeLayerId, b⟩ : HistEntry)]).length + fs.length - maxHistory)
      with hH
    have hslen : (snapshots (f :: fs) b).length = fs.length + 1 := by
      rw [snapshots_length]
      rfl
    have hflen : F.history.length = H.length + (snapshots (f :: fs) b).length := by
      rw [i1]
      simp
    have hidxF : F.historyIndex =
        (H.length : Int) + (snapshots (f :: fs) b).length - 1 := by
      rw [i2, hflen]
      push_cast
      ring
    have hG : F.history = H ++
        (snapshots (f :: fs) b).map (fun x => (⟨s.activeLayerId, x⟩ : HistEntry)) ++ [] := by
      rw [i1]
      simp
    have hrt := undoN_shape s.activeLayerId H (snapshots (f :: fs) b) [] F
      (applyAll fs (f b)) hG hidxF i4
    rw [hslen] at hrt
    have hhead : (((snapshots (f :: fs) b).head?).getD (applyAll fs (f b))) = b := rfl
    rw [hhead] at hrt
    exact hrt

/-- A completed `doOp` on a state whose active layer has no buffer and with
no stale snapshot is a perfect no-op. -/
theorem doOp_missing (f : Buf → Buf) (s : CState)
    (hgb : getBuf s.buffers s.activeLayerId = none)
    (hbs : s.beforeState = none) : doOp f s = s := by
  unfold doOp modifyActive captureBeforeState
  rw [hgb]
  dsimp only
  rw [hgb]
  dsimp only
  unfold commitAction
  rw [hbs]

/-- `clear` either bails out (missing active buffer) or is the completed
operation writing the fully transparent buffer. -/
theorem clear_cases (s : CState) :
    clear s = s ∨
    clear s = doOp (fun _ => List.replicate (4 * s.width * s.height) 0) s := by
  unfold clear
  cases hgb : getBuf s.buffers s.activeLayerId with
  | none => exact Or.inl rfl
  | some b => exact Or.inr rfl

/-- Every terminating flood fill is a no-op, a no-op that only clears the
transient snapshot, or a completed operation on the active layer. -/
theorem floodFill_cases (x y : Int) (fr fg fb fuel : Nat) (s s' : CState)
    (h : floodFill x y fr fg fb fuel s = some s') :
    s' = s ∨ s' = { s with beforeState := none } ∨
      ∃ d, s' = doOp (fun _ => d) s := by
  unfold floodFill at h
  cases hgb : getBuf s.buffers s.activeLayerId with
  | none =>
    rw [hgb] at h
    exact Or.inl (Option.some.inj h).symm
  | some data =>
    rw [hgb] at h
    dsimp only at h
    have hcap : captureBeforeState s = { s with beforeState := some data } := by
      simp [captureBeforeState, hgb]
    split at h
    · -- seed pixel already equal to the fill color: history-free no-op
      refine Or.inr (Or.inl ?_)
      have hs' := Option.some.inj h
      rw [← hs', hcap]
    · -- region growth ran; the loop terminated with some buffer
      split at h
      · exact absurd h (by simp)
      · rename_i data1 visited heq2
        refine Or.inr (Or.inr ⟨(expandLoop s.width s.height
          (readChan data ((y * (s.width : Int) + x) * 4))
          (readChan data ((y * (s.width : Int) + x) * 4 + 1))
          (readChan data ((y * (s.width : Int) + x) * 4 + 2)) fr fg fb 3
          data1 visited).1, ?_⟩)
        have hs' := Option.some.inj h
        rw [← hs']
        unfold doOp modifyActive
        rw [hcap]
        dsimp only
        rw [hgb]

/-! ## Purge characterization -/


theorem purge_fold (lid : String) (p : Int) :
    ∀ (l : List HistEntry) (start : Nat) (acc1 : List HistEntry) (acc2 : Nat),
      (List.enumFrom start l).foldl
        (fun (acc : List HistEntry × Nat) ie =>
          if ie.2.layerId = lid then
            (acc.1, if (ie.1 : Int) ≤ p then acc.2 + 1 else acc.2)
          else (acc.1 ++ [ie.2], acc.2)) (acc1, acc2)
      = (acc1 ++ l.filter (fun e => ¬ e.layerId = lid),
         acc2 + countAtOrBefore lid p start l) := by
  intro l
  induction l with
  | nil =>
    intro start acc1 acc2
    simp [countAtOrBefore]
  | cons e l ih =>
    intro start acc1 acc2
    by_cases he : e.layerId = lid
    · by_cases hs : (start : Int) ≤ p
      · simp only [List.enumFrom, List.foldl_cons, he, if_pos, hs,
          List.filter_cons, countAtOrBefore]
        rw [ih]
        simp [he, hs]
        omega
      · simp only [List.enumFrom, List.foldl_cons, he, if_pos, hs, if_neg,
          List.filter_cons, countAtOrBefore]
        rw [ih]
        simp [he, hs]
    · simp only [List.enumFrom, List.foldl_cons, he, if_neg,
        List.filter_cons, countAtOrBefore]
      rw [ih]
      simp [he, List.append_assoc]

theorem countAtOrBefore_spec (lid : String) (p : Int) :
    ∀ (l : List HistEntry) (start : Nat),
      countAtOrBefore lid p start l
        = ((l.take (p + 1 - start).toNat).filter
            (fun e => e.layerId = lid)).length := by
  intro l
  induction l with
  | nil =>
    intro start
    simp [countAtOrBefore]
  | cons e l ih =>
    intro start
    by_cases hs : (start : Int) ≤ p
    · have ht : (p + 1 - (start : Int)).toNat = (p + 1 - ((start : Nat) + 1 : Nat)).toNat + 1 := by
        push_cast
        omega
      rw [show countAtOrBefore lid p start (e :: l)
          = (if e.layerId = lid ∧ (start : Int) ≤ p then 1 else 0) +
            countAtOrBefore lid p (start + 1) l from rfl]
      rw [ht, List.take_succ_cons, ih (start + 1)]
      by_cases he : e.layerId = lid
      · simp [he, hs, List.filter_cons]
        omega
      · simp [he, hs, List.filter_cons]
    · have ht : (p + 1 - (start : Int)).toNat = 0 := by omega
      have ht2 : (p + 1 - ((start : Nat) + 1 : Nat) : Int).toNat = 0 := by
        push_cast
        omega
      rw [show countAtOrBefore lid p start (e :: l)
          = (if e.layerId = lid ∧ (start : Int) ≤ p then 1 else 0) +
            countAtOrBefore lid p (start + 1) l from rfl]
      rw [ht, ih (start + 1)]
      rw [ht2]
      simp [hs]

/-- Characterization of `purgeLayerHistory`: the new history is the old one
with every entry of the layer removed, and the position is the old one
decreased by the number of removed entries at or before it, clamped to the
end of the new list. -/
theorem purgeLayerHistory_spec (lid : String) (s : CState) :
    (purgeLayerHistory lid s).history
      = s.history.filter (fun e => ¬ e.layerId = lid) ∧
    (purgeLayerHistory lid s).historyIndex
      = min (s.historyIndex -
          (((s.history.take (s.historyIndex + 1).toNat).filter
            (fun e => e.layerId = lid)).length : Int))
          (((s.history.filter (fun e => ¬ e.layerId = lid)).length : Int) - 1) ∧
    (purgeLayerHistory lid s).buffers = s.buffers ∧
    (purgeLayerHistory lid s).activeLayerId = s.activeLayerId ∧
    (purgeLayerHistory lid s).beforeState = s.beforeState ∧
    (purgeLayerHistory lid s).layers = s.layers ∧
    (purgeLayerHistory lid s).usedIds = s.usedIds ∧
    (purgeLayerHistory lid s).width = s.width ∧
    (purgeLayerHistory lid s).height = s.height := by
  have hf : (List.enumFrom 0 s.history).foldl
      (fun (acc : List HistEntry × Nat) ie =>
        if ie.2.layerId = lid then
          (acc.1, if (ie.1 : Int) ≤ s.historyIndex then acc.2 + 1 else acc.2)
        else (acc.1 ++ [ie.2], acc.2)) ([], 0)
      = (([] : List HistEntry) ++ s.history.filter (fun e => ¬ e.layerId = lid),
         0 + countAtOrBefore lid s.historyIndex 0 s.history) :=
    purge_fold lid s.historyIndex s.history 0 [] 0
  have hc : countAtOrBefore lid s.historyIndex 0 s.history
      = ((s.history.take (s.historyIndex + 1).toNat).filter
          (fun e => e.layerId = lid)).length := by
    rw [countAtOrBefore_spec]
    norm_num
  have hf2 : s.history.enum.foldl
      (fun (acc : List HistEntry × Nat) ie =>
        if ie.2.layerId = lid then
          (acc.1, if (ie.1 : Int) ≤ s.historyIndex then acc.2 + 1 else acc.2)
        else (acc.1 ++ [ie.2], acc.2)) ([], 0)
      = (s.history.filter (fun e => ¬ e.layerId = lid),
         countAtOrBefore lid s.historyIndex 0 s.history) := by
    rw [show s.history.enum = List.enumFrom 0 s.history from rfl, hf]
    simp
  unfold purgeLayerHistory
  rw [hf2, hc]
  exact ⟨rfl, rfl, rfl, rfl, rfl, rfl, rfl, rfl, rfl⟩

/-! ## Invariant preservation -/

theorem histInv_doOp (f : Buf → Buf) (s : CState) (hInv : HistInv s) :
    HistInv (doOp f s) := by
  have hmax : maxHistory = 50 := rfl
  cases hgb : getBuf s.buffers s.activeLayerId with
  | none =>
    rw [doOp_missing f s hgb hInv.2.2.2]
    exact hInv
  | some b =>
    obtain ⟨g1, g2, g3, g4, g5, g6, g7, g8, g9, g10⟩ := doOp_shape f s b hgb hInv
    obtain ⟨hlen, hge, hle, hbs⟩ := hInv
    refine ⟨?_, ?_, ?_, g6⟩ <;> omega

theorem histInv_undo (s : CState) (hInv : HistInv s) : HistInv (undo s) := by
  obtain ⟨hlen, hge, hle, hbs⟩ := hInv
  unfold undo
  split
  · exact ⟨hlen, hge, hle, hbs⟩
  · split
    · exact ⟨hlen, hge, hle, hbs⟩
    · split
      · exact ⟨hlen, hge, hle, hbs⟩
      · refine ⟨?_, ?_, ?_, hbs⟩ <;> simp [List.length_set] <;> omega

theorem histInv_redo (s : CState) (hInv : HistInv s) : HistInv (redo s) := by
  obtain ⟨hlen, hge, hle, hbs⟩ := hInv
  unfold redo
  split
  · exact ⟨hlen, hge, hle, hbs⟩
  · rename_i hguard
    dsimp only
    split
    · refine ⟨hlen, ?_, ?_, hbs⟩ <;> dsimp only <;> omega
    · split
      · refine ⟨hlen, ?_, ?_, hbs⟩ <;> dsimp only <;> omega
      · refine ⟨?_, ?_, ?_, hbs⟩ <;> simp [List.length_set] <;> omega

theorem histInv_purge (lid : String) (s : CState) (hInv : HistInv s) :
    HistInv (purgeLayerHistory lid s) := by
  obtain ⟨hlen, hge, hle, hbs⟩ := hInv
  obtain ⟨p1, p2, p3, p4, p5, p6, p7, p8, p9⟩ := purgeLayerHistory_spec lid s
  have hfl : (s.history.filter (fun e => ¬ e.layerId = lid)).length
      ≤ s.history.length := List.length_filter_le _ _
  have hcl : ((s.history.take (s.historyIndex + 1).toNat).filter
      (fun e => e.layerId = lid)).length ≤ (s.historyIndex + 1).toNat := by
    calc ((s.history.take (s.historyIndex + 1).toNat).filter
        (fun e => e.layerId = lid)).length
        ≤ (s.history.take (s.historyIndex + 1).toNat).length :=
          List.length_filter_le _ _
      _ ≤ (s.historyIndex + 1).toNat := by
          rw [List.length_take]
          omega
  refine ⟨?_, ?_, ?_, ?_⟩
  · rw [p1]
    omega
  · rw [p2]
    omega
  · rw [p2, p1]
    omega
  · rw [p5]
    exact hbs

/-- Every user-visible event preserves the history-manager invariant. -/
theorem histInv_step (s s' : CState) (hInv : HistInv s) (h : Step s s') :
    HistInv s' := by
  obtain ⟨hlen, hge, hle, hbs⟩ := hInv
  cases h with
  | stroke f s => exact histInv_doOp f s ⟨hlen, hge, hle, hbs⟩
  | fillStep x y fr fg fb fuel s s' hf =>
    rcases floodFill_cases x y fr fg fb fuel s s' hf with h1 | h1 | ⟨d, h1⟩
    · rw [h1]
      exact ⟨hlen, hge, hle, hbs⟩
    · rw [h1]
      exact ⟨hlen, hge, hle, rfl⟩
    · rw [h1]
      exact histInv_doOp _ s ⟨hlen, hge, hle, hbs⟩
  | clearStep s =>
    rcases clear_cases s with h1 | h1
    · rw [h1]
      exact ⟨hlen, hge, hle, hbs⟩
    · rw [h1]
      exact histInv_doOp _ s ⟨hlen, hge, hle, hbs⟩
  | undoStep s => exact histInv_undo s ⟨hlen, hge, hle, hbs⟩
  | redoStep s => exact histInv_redo s ⟨hlen, hge, hle, hbs⟩
  | addLayerStep id nm s hfresh => exact ⟨hlen, hge, hle, hbs⟩
  | deleteLayerStep id s =>
    unfold deleteLayer
    split
    · exact ⟨hlen, hge, hle, hbs⟩
    · have hp := histInv_purge id s ⟨hlen, hge, hle, hbs⟩
      obtain ⟨q1, q2, q3, q4⟩ := hp
      exact ⟨q1, q2, q3, q4⟩
  | selectLayerStep id s => exact ⟨hlen, hge, hle, hbs⟩
  | setOpacityStep id q s => exact ⟨hlen, hge, hle, hbs⟩
  | setVisibilityStep id b s => exact ⟨hlen, hge, hle, hbs⟩
  | renameLayerStep id nm s => exact ⟨hlen, hge, hle, hbs⟩
  | moveLayerStep id up s => exact ⟨hlen, hge, hle, hbs⟩
  | loadBufferStep id b s =>
    unfold loadBuffer
    split
    · exact ⟨hlen, hge, hle, hbs⟩
    · exact ⟨hlen, hge, hle, hbs⟩
  | resetHistoryStep s => exact ⟨by simp [resetHistory, maxHistory], by simp [resetHistory],
      by simp [resetHistory], hbs⟩


theorem noRef_doOp (d : String) (f : Buf → Buf) (s : CState)
    (hInv : HistInv s) (hn : NoRef d s) : NoRef d (doOp f s) := by
  obtain ⟨hent, hbuf, hused⟩ := hn
  cases hgb : getBuf s.buffers s.activeLayerId with
  | none =>
    rw [doOp_missing f s hgb hInv.2.2.2]
    exact ⟨hent, hbuf, hused⟩
  | some b =>
    have had : s.activeLayerId ≠ d := by
      intro hEq
      rw [hEq, hbuf] at hgb
      exact Option.noConfusion hgb
    obtain ⟨g1, g2, g3, g4, g5, g6, g7, g8, g9, g10⟩ := doOp_shape f s b hgb hInv
    refine ⟨?_, ?_, ?_⟩
    · rw [g1]
      intro e he
      rcases List.mem_append.mp he with h1 | h1
      · exact hent e (List.mem_of_mem_take (List.mem_of_mem_drop h1))
      · have : e = ⟨s.activeLayerId, b⟩ := by simpa using h1
        rw [this]
        exact had
    · rw [g4, getBuf_updBuf_ne _ _ _ _ (Ne.symm had)]
      exact hbuf
    · rw [g10]
      exact hused

/-- No event resurrects a purged layer: the no-reference predicate is
preserved by every step. -/
theorem noRef_step (d : String) (s s' : CState) (hInv : HistInv s)
    (hn : NoRef d s) (h : Step s s') : NoRef d s' := by
  obtain ⟨hent, hbuf, hused⟩ := hn
  cases h with
  | stroke f s => exact noRef_doOp d f s hInv ⟨hent, hbuf, hused⟩
  | fillStep x y fr fg fb fuel s s' hf =>
    rcases floodFill_cases x y fr fg fb fuel s s' hf with h1 | h1 | ⟨dd, h1⟩
    · rw [h1]
      exact ⟨hent, hbuf, hused⟩
    · rw [h1]
      exact ⟨hent, hbuf, hused⟩
    · rw [h1]
      exact noRef_doOp d _ s hInv ⟨hent, hbuf, hused⟩
  | clearStep s =>
    rcases clear_cases s with h1 | h1
    · rw [h1]
      exact ⟨hent, hbuf, hused⟩
    · rw [h1]
      exact noRef_doOp d _ s hInv ⟨hent, hbuf, hused⟩
  | undoStep s =>
    unfold undo
    split
    · exact ⟨hent, hbuf, hused⟩
    · split
      · exact ⟨hent, hbuf, hused⟩
      · rename_i entry hget
        have hmem : entry ∈ s.history := List.get?_mem hget
        have hne : entry.layerId ≠ d := hent entry hmem
        split
        · exact ⟨hent, hbuf, hused⟩
        · refine ⟨?_, ?_, hused⟩
          · intro e he
            rcases mem_of_mem_set he with h1 | h1
            · rw [h1]
              exact hne
            · exact hent e h1
          · rw [getBuf_updBuf_ne _ _ _ _ (Ne.symm hne)]
            exact hbuf
  | redoStep s =>
    unfold redo
    split
    · exact ⟨hent, hbuf, hused⟩
    · dsimp only
      split
      · exact ⟨hent, hbuf, hused⟩
      · rename_i entry hget
        have hmem : entry ∈ s.history := List.get?_mem hget
        have hne : entry.layerId ≠ d := hent entry hmem
        split
        · exact ⟨hent, hbuf, hused⟩
        · refine ⟨?_, ?_, hused⟩
          · intro e he
            rcases mem_of_mem_set he with h1 | h1
            · rw [h1]
              exact hne
            · exact hent e h1
          · rw [getBuf_updBuf_ne _ _ _ _ (Ne.symm hne)]
            exact hbuf
  | addLayerStep id nm s hfresh =>
    have hid : id ≠ d := by
      intro hEq
      rw [hEq] at hfresh
      exact hfresh hused
    refine ⟨hent, ?_, List.mem_cons_of_mem _ hused⟩
    exact getBuf_append_none _ _ _ hbuf hid
  | deleteLayerStep id s =>
    unfold deleteLayer
    split
    · exact ⟨hent, hbuf, hused⟩
    · obtain ⟨p1, p2, p3, p4, p5, p6, p7, p8, p9⟩ := purgeLayerHistory_spec id s
      refine ⟨?_, ?_, ?_⟩
      · dsimp only
        rw [p1]
        intro e he
        exact hent e (List.mem_of_mem_filter he)
      · dsimp only
        rw [p3]
        exact getBuf_filter_none _ _ _ hbuf
      · dsimp only
        rw [p7]
        exact hused
  | selectLayerStep id s => exact ⟨hent, hbuf, hused⟩
  | setOpacityStep id q s => exact ⟨hent, hbuf, hused⟩
  | setVisibilityStep id b s => exact ⟨hent, hbuf, hused⟩
  | renameLayerStep id nm s => exact ⟨hent, hbuf, hused⟩
  | moveLayerStep id up s => exact ⟨hent, hbuf, hused⟩
  | loadBufferStep id b s =>
    unfold loadBuffer
    split
    · exact ⟨hent, hbuf, hused⟩
    · rename_i x hget
      have hid : id ≠ d := by
        intro hEq
        rw [hEq, hbuf] at hget
        exact Option.noConfusion hget
      refine ⟨hent, ?_, hused⟩
      rw [getBuf_updBuf_ne _ _ _ _ (Ne.symm hid)]
      exact hbuf
  | resetHistoryStep s =>
    refine ⟨?_, hbuf, hused⟩
    intro e he
    simp [resetHistory] at he

/-! ## Compositor lemmas -/

theorem get?_replicate_lt (v : Nat) : ∀ (n i : Nat), i < n →
    (List.replicate n v).get? i = some v := by
  intro n
  induction n with
  | zero =>
    intro i h
    omega
  | succ m ih =>
    intro i h
    cases i with
    | zero => rfl
    | succ j => exact ih j (by omega)

theorem chan_replicate (n i v : Nat) (h : i < n) :
    chan (List.replicate n v) i = v := by
  unfold chan
  rw [get?_replicate_lt v n i h]
  rfl

theorem overBuf_get? (alpha : ℚ) (dst src : Buf) (i : Nat) (h : i < dst.length) :
    (overBuf alpha dst src).get? i = some (
      if i % 4 = 3 then
        jsRound (255 * (alpha * (chan src (4 * (i / 4) + 3) : ℚ) / 255 +
          (chan dst (4 * (i / 4) + 3) : ℚ) / 255 *
            (1 - alpha * (chan src (4 * (i / 4) + 3) : ℚ) / 255)))
      else if (alpha * (chan src (4 * (i / 4) + 3) : ℚ) / 255 +
          (chan dst (4 * (i / 4) + 3) : ℚ) / 255 *
            (1 - alpha * (chan src (4 * (i / 4) + 3) : ℚ) / 255)) = 0 then 0
      else jsRound (((chan src i : ℚ) * (alpha * (chan src (4 * (i / 4) + 3) : ℚ) / 255) +
        (chan dst i : ℚ) * ((chan dst (4 * (i / 4) + 3) : ℚ) / 255) *
          (1 - alpha * (chan src (4 * (i / 4) + 3) : ℚ) / 255)) /
        (alpha * (chan src (4 * (i / 4) + 3) : ℚ) / 255 +
          (chan dst (4 * (i / 4) + 3) : ℚ) / 255 *
            (1 - alpha * (chan src (4 * (i / 4) + 3) : ℚ) / 255)))) := by
  unfold overBuf
  rw [List.get?_map, List.get?_range h]
  rfl

/-- C9 helper statement proved generically before being named as the claim
theorem: a half-opacity layer holding an opaque red pixel composited over
the white background yields (255,128,128). -/
theorem composite_halfred_pixel (s : CState) (L : Layer) (b : Buf) (x y : Nat)
    (hl : s.layers = [L]) (hv : L.visible = true) (ho : L.opacity = 1 / 2)
    (hb : getBuf s.buffers L.id = some b)
    (hx : x < s.width) (hy : y < s.height)
    (hp : getPixel b s.width x y = some (255, 0, 0, 255)) :
    getPixel (composite s) s.width x y = some (255, 128, 128, 255) := by
  have hcomp : composite s
      = overBuf (1 / 2) (List.replicate (4 * s.width * s.height) 255) b := by
    unfold composite
    rw [hl]
    simp [hv, hb, ho]
  set k := y * s.width + x with hk
  have hklt : k < s.width * s.height := by
    calc k = y * s.width + x := rfl
    _ < (y + 1) * s.width := by
        rw [Nat.succ_mul]
        omega
    _ ≤ s.height * s.width := Nat.mul_le_mul_right _ (by omega)
    _ = s.width * s.height := Nat.mul_comm _ _
  have hlen : (List.replicate (4 * s.width * s.height) (255 : Nat)).length
      = 4 * s.width * s.height := List.length_replicate _ _
  unfold getPixel at hp
  cases h0 : b.get? (4 * k) with
  | none => rw [h0] at hp; simp at hp
  | some r =>
  cases h1 : b.get? (4 * k + 1) with
  | none => rw [h0, h1] at hp; simp at hp
  | some g =>
  cases h2 : b.get? (4 * k + 2) with
  | none => rw [h0, h1, h2] at hp; simp at hp
  | some bl =>
  cases h3 : b.get? (4 * k + 3) with
  | none => rw [h0, h1, h2, h3] at hp; simp at hp
  | some a =>
  rw [h0, h1, h2, h3] at hp
  simp only [Option.some.injEq, Prod.mk.injEq] at hp
  obtain ⟨hr, hg, hbl, ha⟩ := hp
  subst hr; subst hg; subst hbl; subst ha
  have hc0 : chan b (4 * k) = 255 := by unfold chan; rw [h0]; rfl
  have hc1 : chan b (4 * k + 1) = 0 := by unfold chan; rw [h1]; rfl
  have hc2 : chan b (4 * k + 2) = 0 := by unfold chan; rw [h2]; rfl
  have hc3 : chan b (4 * k + 3) = 255 := by unfold chan; rw [h3]; rfl
  have hd0 : (4 * k) / 4 = k := by omega
  have hd1 : (4 * k + 1) / 4 = k := by omega
  have hd2 : (4 * k + 2) / 4 = k := by omega
  have hd3 : (4 * k + 3) / 4 = k := by omega
  have hm0 : (4 * k) % 4 = 0 := by omega
  have hm1 : (4 * k + 1) % 4 = 1 := by omega
  have hm2 : (4 * k + 2) % 4 = 2 := by omega
  have hm3 : (4 * k + 3) % 4 = 3 := by omega
  have hmul4 : 4 * s.width * s.height = 4 * (s.width * s.height) := by ring
  have hi0 : 4 * k < 4 * s.width * s.height := by rw [hmul4]; omega
  have hi1 : 4 * k + 1 < 4 * s.width * s.height := by rw [hmul4]; omega
  have hi2 : 4 * k + 2 < 4 * s.width * s.height := by rw [hmul4]; omega
  have hi3 : 4 * k + 3 < 4 * s.width * s.height := by rw [hmul4]; omega
  have hw0 := overBuf_get? (1 / 2) (List.replicate (4 * s.width * s.height) 255) b
    (4 * k) (by rw [hlen]; exact hi0)
  have hw1 := overBuf_get? (1 / 2) (List.replicate (4 * s.width * s.height) 255) b
    (4 * k + 1) (by rw [hlen]; exact hi1)
  have hw2 := overBuf_get? (1 / 2) (List.replicate (4 * s.width * s.height) 255) b
    (4 * k + 2) (by rw [hlen]; exact hi2)
  have hw3 := overBuf_get? (1 / 2) (List.replicate (4 * s.width * s.height) 255) b
    (4 * k + 3) (by rw [hlen]; exact hi3)
  rw [hd0, hm0] at hw0
  rw [hd1, hm1] at hw1
  rw [hd2, hm2] at hw2
  rw [hd3, hm3] at hw3
  rw [hc3, hc0, chan_replicate _ _ _ hi0, chan_replicate _ _ _ hi3] at hw0
  rw [hc3, hc1, chan_replicate _ _ _ hi1, chan_replicate _ _ _ hi3] at hw1
  rw [hc3, hc2, chan_replicate _ _ _ hi2, chan_replicate _ _ _ hi3] at hw2
  rw [hc3, chan_replicate _ _ _ hi3] at hw3
  unfold getPixel
  rw [hcomp, hw0, hw1, hw2, hw3]
  norm_num [jsRound]
  omega

theorem getBuf_filter_self (l : List (String × Buf)) (d : String) :
    getBuf (l.filter (fun kv => kv.1 ≠ d)) d = none := by
  induction l with
  | nil => rfl
  | cons kv rest ih =>
    obtain ⟨k, v⟩ := kv
    by_cases hk : k = d
    · have hcond : decide ((k, v).1 ≠ d) = false := by simp [hk]
      simp only [List.filter_cons, hcond]
      simpa using ih
    · have hcond : decide ((k, v).1 ≠ d) = true := by simp [hk]
      simp only [List.filter_cons, hcond, if_true]
      simp only [getBuf, if_neg hk]
      simpa using ih

/-! ## Claim theorems -/

/-- C1: the claim demands that a fill whose seed lies outside the buffer
bounds fail with an out-of-range signal, leave the buffer untouched and
record no history entry.  The code performs no bounds check: at seed
(-1,0) on a 2-by-2 white canvas the buffer is indeed left untouched (the
result differs from the start state only in its history fields), but a
spurious history entry is recorded and no failure is signalled — the
function's only outcome is the mutated state. -/
theorem floodFill_oob_seed_records_history :
    floodFill (-1) 0 255 0 0 50 c1State
      = some { c1State with history := [⟨"L1", whiteBuf2⟩], historyIndex := 0 } ∧
    getBuf c1State.buffers "L1" = some whiteBuf2 ∧
    c1State.history = [] := by
  refine ⟨by decide, by decide, rfl⟩

set_option maxRecDepth 20000 in
/-- C2 counterexample: 51 buffer-changing flood fills followed by 51
undo() calls do not restore the 1-by-1 canvas: the bound evicts the oldest
entry, so the buffer comes back to the state after the first fill (red),
not the all-white state before it. -/
theorem fifty_one_fills_then_undos_leave_red :
    (altFills 51 c2State).map (fun t => getBuf (undoN 51 t).buffers "L1")
      = some (some [255, 0, 0, 255]) ∧
    getBuf c2State.buffers "L1" = some [255, 255, 255, 255] ∧
    ([255, 0, 0, 255] : Buf) ≠ [255, 255, 255, 255] := by
  refine ⟨by decide, by decide, by decide⟩

/-- C2 (amended): for every sequence of at most 50 history-recording
completed strokes/fills on the active layer followed by as many undo()
calls, the active layer's buffer equals its state before the first
operation. -/
theorem strokes_fills_undo_roundtrip (fs : List (Buf → Buf)) (s : CState)
    (b : Buf) (hb : getBuf s.buffers s.activeLayerId = some b)
    (hInv : HistInv s) (hk : fs.length ≤ maxHistory) :
    getBuf (undoN fs.length (doOps fs s)).buffers s.activeLayerId = some b :=
  doOps_undoN_roundtrip fs s b hb hInv hk

/-- C2 witness: two concrete strokes and two undos on the 1-by-1 canvas. -/
theorem strokes_fills_undo_roundtrip_witness :
    getBuf (undoN 2 (doOps [fun _ => [1, 1, 1, 255], fun _ => [2, 2, 2, 255]]
      c2State)).buffers "L1" = some [255, 255, 255, 255] :=
  strokes_fills_undo_roundtrip [fun _ => [1, 1, 1, 255], fun _ => [2, 2, 2, 255]]
    c2State [255, 255, 255, 255] (by decide) (by decide) (by decide)

/-- C3: the history bound.  (i) Every event from an invariant-satisfying
state leaves at most 50 entries; (ii) a commit from a full history at the
tip discards the oldest entry and does not advance the position; (iii) the
most recent at-most-50 committed operations remain undoable (the round
trip restores the buffer). -/
theorem history_bound_properties :
    (∀ s s' : CState, HistInv s → Step s s' → s'.history.length ≤ maxHistory) ∧
    (∀ (s : CState) (b : Buf), s.beforeState = some b →
      s.historyIndex = (s.history.length : Int) - 1 →
      s.history.length = maxHistory →
      commitAction s
        = { s with history := s.history.drop 1 ++ [⟨s.activeLayerId, b⟩],
                   beforeState := none }) ∧
    (∀ (fs : List (Buf → Buf)) (s : CState) (b : Buf),
      getBuf s.buffers s.activeLayerId = some b → HistInv s →
      fs.length ≤ maxHistory →
      getBuf (undoN fs.length (doOps fs s)).buffers s.activeLayerId = some b) := by
  refine ⟨?_, ?_, ?_⟩
  · intro s s' hInv hstep
    exact (histInv_step s s' hInv hstep).1
  · intro s b hbs hTip hlen
    have hp1 : s.historyIndex + 1 = (s.history.length : Int) := by
      rw [hTip]
      ring
    have hts : (s.historyIndex + 1).toNat = s.history.length := by
      rw [hp1]
      exact Int.toNat_natCast _
    have hslice : jsSlice s.history (s.historyIndex + 1) = s.history := by
      rw [jsSlice_nonneg _ _ (by omega), hts, List.take_length]
    unfold commitAction
    rw [hbs]
    dsimp only
    rw [hslice]
    have hmax : maxHistory = 50 := rfl
    have hplen : (s.history ++ [(⟨s.activeLayerId, b⟩ : HistEntry)]).length
        = maxHistory + 1 := by
      simp [hlen]
    rw [if_pos (by rw [hplen]; omega)]
    congr 1
    exact List.drop_append_of_le_length (by omega)
  · intro fs s b hb hInv hk
    exact doOps_undoN_roundtrip fs s b hb hInv hk

/-- C3 witness: concrete instances of all three conjuncts, including a
commit on a full 50-entry history. -/
theorem history_bound_properties_witness :
    (undo c2State).history.length ≤ maxHistory ∧
    commitAction { c2State with
      history := List.replicate 50 (⟨"L1", [1]⟩ : HistEntry),
      historyIndex := 49, beforeState := some [2] }
      = { c2State with
          history := (List.replicate 50 (⟨"L1", [1]⟩ : HistEntry)).drop 1
            ++ [⟨"L1", [2]⟩],
          historyIndex := 49, beforeState := none } ∧
    getBuf (undoN 1 (doOps [fun _ => [7, 7, 7, 255]] c2State)).buffers "L1"
      = some [255, 255, 255, 255] := by
  refine ⟨?_, ?_, ?_⟩
  · exact history_bound_properties.1 c2State (undo c2State) (by decide)
      (Step.undoStep c2State)
  · exact history_bound_properties.2.1 _ [2] rfl (by decide) (by decide)
  · exact history_bound_properties.2.2 [fun _ => [7, 7, 7, 255]] c2State
      [255, 255, 255, 255] (by decide) (by decide) (by decide)

/-- C4: for any completed operation on the active layer (the
capture/mutate/commit pipeline shared by strokes, committing fills —
see `floodFill_cases` — and clear — see `clear_cases`), undo() then
redo() restores the full post-operation state, so in particular the
mutated layer's buffer; and undo() is a no-op at position below 0 while
redo() is a no-op at the list end. -/
theorem undo_redo_restores_after_op (f : Buf → Buf) (s : CState) (b : Buf)
    (hb : getBuf s.buffers s.activeLayerId = some b) (hInv : HistInv s) :
    redo (undo (doOp f s)) = doOp f s ∧
    (∀ t : CState, t.historyIndex < 0 → undo t = t) ∧
    (∀ t : CState, (t.history.length : Int) - 1 ≤ t.historyIndex → redo t = t) :=
  ⟨doOp_undo_redo f s b hb hInv, fun t ht => undo_noop_of_neg t ht,
   fun t ht => redo_noop_of_end t ht⟩

/-- C4 witness: one concrete stroke on the 1-by-1 canvas. -/
theorem undo_redo_restores_after_op_witness :
    redo (undo (doOp (fun _ => [9, 9, 9, 255]) c2State))
      = doOp (fun _ => [9, 9, 9, 255]) c2State :=
  (undo_redo_restores_after_op (fun _ => [9, 9, 9, 255]) c2State
    [255, 255, 255, 255] (by decide) (by decide)).1

/-- C5: purgeLayer removes exactly the entries of the deleted layer, the
position decreases by the number of removed entries at or before it and
is clamped to the new list end; deleting a layer (allowed only while at
least two exist) establishes that nothing references it, and every
subsequent event preserves that, so no later undo()/redo() ever touches
the deleted layer. -/
theorem purgeLayer_removes_and_clamps :
    (∀ (lid : String) (s : CState),
      (purgeLayerHistory lid s).history
        = s.history.filter (fun e => ¬ e.layerId = lid)) ∧
    (∀ (lid : String) (s : CState),
      (purgeLayerHistory lid s).historyIndex
        = min (s.historyIndex -
            (((s.history.take (s.historyIndex + 1).toNat).filter
              (fun e => e.layerId = lid)).length : Int))
            (((s.history.filter (fun e => ¬ e.layerId = lid)).length : Int) - 1)) ∧
    (∀ (d : String) (s : CState), HistInv s → 1 < s.layers.length →
      d ∈ s.usedIds → NoRef d (deleteLayer d s)) ∧
    (∀ (d : String) (s s' : CState), HistInv s → NoRef d s → Step s s' →
      NoRef d s') := by
  refine ⟨?_, ?_, ?_, ?_⟩
  · intro lid s
    exact (purgeLayerHistory_spec lid s).1
  · intro lid s
    exact (purgeLayerHistory_spec lid s).2.1
  · intro d s hInv hlen hused
    unfold deleteLayer
    rw [if_neg (by omega)]
    obtain ⟨p1, p2, p3, p4, p5, p6, p7, p8, p9⟩ := purgeLayerHistory_spec d s
    refine ⟨?_, ?_, ?_⟩
    · dsimp only
      rw [p1]
      intro e he
      have := List.of_mem_filter he
      simpa using this
    · dsimp only
      rw [p3]
      exact getBuf_filter_self s.buffers d
    · dsimp only
      rw [p7]
      exact hused
  · intro d s s' hInv hn hstep
    exact noRef_step d s s' hInv hn hstep

/-- C5 witness: purging layer L1 out of an interleaved three-entry
history, and deleting it from a two-layer state. -/
theorem purgeLayer_removes_and_clamps_witness :
    (purgeLayerHistory "L1" c5State).history
      = [(⟨"L2", [0, 0, 0, 0]⟩ : HistEntry)] ∧
    (purgeLayerHistory "L1" c5State).historyIndex = 0 ∧
    NoRef "L1" (deleteLayer "L1" c5State) := by
  refine ⟨?_, ?_, ?_⟩
  · rw [purgeLayer_removes_and_clamps.1 "L1" c5State]
    decide
  · rw [purgeLayer_removes_and_clamps.2.1 "L1" c5State]
    decide
  · exact purgeLayer_removes_and_clamps.2.2.1 "L1" c5State (by decide)
      (by decide) (by decide)

set_option maxRecDepth 100000 in
/-- C6 counterexample: on the 10-by-10 all-white canvas, flood fill at
seed (5,5) with opaque red also recolors pixel (0,0): the all-white
canvas is one connected tolerance-matched region, so (0,0) does not
remain white as the claim asserts. -/
theorem fill_allwhite_origin_not_white :
    (floodFill 5 5 255 0 0 600 c6State).map
      (fun t => getPixel ((getBuf t.buffers "L1").getD []) 10 0 0)
      = some (some (255, 0, 0, 255)) ∧
    getPixel whiteBuf10 10 0 0 = some (255, 255, 255, 255) := by
  refine ⟨by decide, by decide⟩

set_option maxRecDepth 100000 in
/-- C6 (amended): on a 10-by-10 canvas whose layer pixels are all white,
flood fill at seed (5,5) with fill color red makes the entire canvas,
pixel (0,0) included, fully opaque red — the whole canvas is a single
4-connected region within tolerance of the seed — and records one
history entry holding the all-white snapshot. -/
theorem fill_allwhite_fills_entire_canvas :
    floodFill 5 5 255 0 0 600 c6State
      = some { c6State with
          buffers := [("L1", redBuf10)],
          history := [⟨"L1", whiteBuf10⟩], historyIndex := 0 } := by
  decide

/-- C7: the claim demands that a document that fails to parse or has
structurally invalid version/fields abort the load, leave the prior
editable state completely unchanged, and signal the failure.  In the
code a parse failure does leave the state unchanged (first conjunct) but
is swallowed by an empty catch, and a parseable document with missing
version/fields is not validated at all: every setter runs first, so the
canvas size becomes (undefined, undefined), tool/brush/pressure/color are
reset to defaults and the layer list is replaced (second and third
conjuncts) — and the handler returns nothing, so no failure is ever
signalled to the caller. -/
theorem handleOpen_invalid_document_clobbers_state :
    handleOpen none (some "b.cmc") "layer-9" c7UI = c7UI ∧
    handleOpen (some emptyParsed) (some "b.cmc") "layer-9" c7UI
      = { canvasSize := some (none, none), tool := "pen", brushSize := 3,
          pressureEnabled := true, color := "#000000",
          currentFilePath := some "b.cmc",
          layers := [⟨"layer-9", "default", 1, true⟩],
          activeLayerId := "layer-9" } ∧
    handleOpen (some emptyParsed) (some "b.cmc") "layer-9" c7UI ≠ c7UI := by
  refine ⟨rfl, by decide, by decide⟩

/-- C8: when the seed pixel already equals the fill color at full
opacity, flood fill returns the state unchanged: no pixel changes and no
history entry is recorded (the pending snapshot is discarded before the
commit).  Since a completed fill leaves its region exactly at the fill
color with alpha 255, filling the same uniform region again with the
same color is such a no-op. -/
theorem floodFill_seed_matches_noop (x y : Int) (fr fg fb : Nat)
    (fuel : Nat) (s : CState) (data : Buf)
    (hgb : getBuf s.buffers s.activeLayerId = some data)
    (hbs : s.beforeState = none)
    (h0 : readChan data ((y * s.width + x) * 4) = some fr)
    (h1 : readChan data ((y * s.width + x) * 4 + 1) = some fg)
    (h2 : readChan data ((y * s.width + x) * 4 + 2) = some fb)
    (h3 : readChan data ((y * s.width + x) * 4 + 3) = some 255) :
    floodFill x y fr fg fb fuel s = some s := by
  unfold floodFill
  rw [hgb]
  dsimp only
  rw [if_pos ⟨h0, h1, h2, h3⟩]
  have hcap : captureBeforeState s = { s with beforeState := some data } := by
    simp [captureBeforeState, hgb]
  rw [hcap]
  congr 1
  rw [← hbs]

/-- C8 witness: refilling the already-red 1-by-1 canvas with red. -/
theorem floodFill_seed_matches_noop_witness :
    floodFill 0 0 255 0 0 5 c8State = some c8State :=
  floodFill_seed_matches_noop 0 0 255 0 0 5 c8State [255, 0, 0, 255]
    (by decide) rfl (by decide) (by decide) (by decide) (by decide)

/-- C9: with the single layer L1 set to opacity 0.5 and visible, at any
pixel where L1 holds fully opaque red, composite() over the opaque white
background yields (255,128,128) — regardless of what any draw operation
left in the rest of the buffer. -/
theorem composite_half_opacity_red_over_white (s : CState) (L : Layer)
    (b : Buf) (x y : Nat) (hl : s.layers = [L]) (hv : L.visible = true)
    (ho : L.opacity = 1 / 2) (hb : getBuf s.buffers L.id = some b)
    (hx : x < s.width) (hy : y < s.height)
    (hp : getPixel b s.width x y = some (255, 0, 0, 255)) :
    getPixel (composite s) s.width x y = some (255, 128, 128, 255) :=
  composite_halfred_pixel s L b x y hl hv ho hb hx hy hp

/-- C9 witness: a 1-by-1 red layer at opacity one half over white. -/
theorem composite_half_opacity_red_over_white_witness :
    getPixel (composite { c8State with
      layers := [⟨"L1", "layer 1", 1 / 2, true⟩] }) 1 0 0
      = some (255, 128, 128, 255) :=
  composite_half_opacity_red_over_white _ ⟨"L1", "layer 1", 1 / 2, true⟩
    [255, 0, 0, 255] 0 0 rfl rfl rfl (by decide) (by decide) (by decide)
    (by decide)

/-- C10: when the active layer id has no buffer in the store, a completed
pointer gesture and a flood fill are silent no-ops at the history level:
capture bails out so no before-snapshot exists, the buffer mutation has
no target, and commit with no pending snapshot leaves the history list
and position unchanged — the state is returned exactly as it was. -/
theorem missing_active_buffer_noop (f : Buf → Buf) (x y : Int)
    (fr fg fb fuel : Nat) (s : CState)
    (hgb : getBuf s.buffers s.activeLayerId = none)
    (hbs : s.beforeState = none) :
    doOp f s = s ∧ floodFill x y fr fg fb fuel s = some s ∧
    captureBeforeState s = s ∧ commitAction s = s := by
  refine ⟨doOp_missing f s hgb hbs, ?_, ?_, ?_⟩
  · unfold floodFill
    rw [hgb]
  · unfold captureBeforeState
    rw [hgb]
  · unfold commitAction
    rw [hbs]

/-- C10 witness: a state whose active id L2 has no backing buffer. -/
theorem missing_active_buffer_noop_witness :
    doOp (fun _ => [1, 2, 3, 4]) c10State = c10State ∧
    floodFill 0 0 255 0 0 9 c10State = some c10State :=
  ⟨(missing_active_buffer_noop (fun _ => [1, 2, 3, 4]) 0 0 255 0 0 9 c10State
      (by decide) rfl).1,
   (missing_active_buffer_noop (fun _ => [1, 2, 3, 4]) 0 0 255 0 0 9 c10State
      (by decide) rfl).2.1⟩
